import Mathlib

/-!
# Verification of the analytical ACES reference config generator

A shallow embedding of
`opencolorio_config_aces/config/reference/generate/analytical.py` together
with models of the collaborators it imports from elsewhere in the repository
(graph shortest-path queries, name beautification, colorspace construction).
Definitions modelled from the specification rather than from the source file
say so in their doc comment.
-/

/-! ## Constants imported by the source file

These constants are defined in other modules of the repository
(`config/reference/generate/config.py` and `config/reference/discover/graph.py`).
-/

/-- Modelled from the spec: the scene reference node id
(`ACES_CONFIG_REFERENCE_COLORSPACE`, the "Academy Color Encoding System"
reference colorspace); the source file only imports it.  The concrete string
is arbitrary but fixed and distinct from the display reference id. -/
def ACES_CONFIG_REFERENCE_COLORSPACE : String := "ACES2065-1"

/-- Modelled from the spec: the display reference node id
(`ACES_CONFIG_OUTPUT_ENCODING_COLORSPACE`, the "Output Color Encoding
Specification" colorspace); the source file only imports it. -/
def ACES_CONFIG_OUTPUT_ENCODING_COLORSPACE : String := "OCES"

/-- Modelled from the spec: the separator between the two leaf segments in an
elementary transform identifier; the spec's end-to-end example names the
transform of edge `A -> R` as `A_to_R`. -/
def ACES_CONFIG_BUILTIN_TRANSFORM_NAME_SEPARATOR : String := "_to_"

/-- Modelled from the spec: the colorspace name separator used in the fixed
`Output` prefix token of the view-name rules (the source file itself writes
the hardcoded separator `" - "` in its reference colorspace names). -/
def ACES_CONFIG_COLORSPACE_NAME_SEPARATOR : String := " - "

/-- Modelled from the spec: the separator between segments of a hierarchical
node id (`NODE_NAME_SEPARATOR` from the discovery module). -/
def NODE_NAME_SEPARATOR : Char := '/'

/-! ## Pure string utilities

Character-list implementations of the Python string operations the source
relies on (`str.split`, `re.sub` with literal patterns, `str.strip`), written
by structural recursion so that every theorem below can be checked by
evaluation.
-/

/-- Split a character list on a separator character, like Python `str.split`:
the result is never empty and splitting the empty string yields one empty
segment. -/
def splitOnChar (sep : Char) : List Char → List (List Char)
  | [] => [[]]
  | c :: cs =>
    let rest := splitOnChar sep cs
    if c = sep then
      [] :: rest
    else
      match rest with
      | [] => [[c]]
      | seg :: segs => (c :: seg) :: segs

/-- The last segment of a hierarchical node id: Python
`name.split(NODE_NAME_SEPARATOR)[-1]`. -/
def lastSegment (name : String) : String :=
  String.mk ((splitOnChar NODE_NAME_SEPARATOR name.toList).getLastD [])

/-- One fuelled pass of literal-pattern substitution: every occurrence of
`pat` in the text is replaced by `repl`, scanning left to right, like
`re.sub` with a fully escaped (literal) pattern.  The fuel is the length of
the text, which bounds the number of scanning steps. -/
def replaceChars (pat repl : List Char) : Nat → List Char → List Char
  | _, [] => []
  | 0, l => l
  | fuel + 1, c :: cs =>
    if pat ≠ [] ∧ pat.isPrefixOf (c :: cs) then
      repl ++ replaceChars pat repl fuel (List.drop (pat.length - 1) cs)
    else
      c :: replaceChars pat repl fuel cs

/-- Replace every occurrence of the literal pattern `pat` in `s` by `repl`. -/
def replaceAll (s pat repl : String) : String :=
  String.mk (replaceChars pat.toList repl.toList s.toList.length s.toList)

/-- Lower-case a string character by character, like Python `str.lower` on
ASCII input. -/
def lowerString (s : String) : String :=
  String.mk (s.toList.map Char.toLower)

/-- Remove leading and trailing whitespace, like Python `str.strip`. -/
def stripString (s : String) : String :=
  String.mk (((s.toList.dropWhile Char.isWhitespace).reverse.dropWhile
    Char.isWhitespace).reverse)

/-- Strict lexicographic comparison of character lists by code point,
matching Python's string comparison. -/
def charListLT : List Char → List Char → Bool
  | [], [] => false
  | [], _ :: _ => true
  | _ :: _, [] => false
  | a :: as, b :: bs =>
    if a.toNat < b.toNat then true
    else if b.toNat < a.toNat then false
    else charListLT as bs

/-- Strict lexicographic order on strings by code point. -/
def stringLT (a b : String) : Bool :=
  charListLT a.toList b.toList

/-- Lexicographic order on strings by code point, as used by Python
`sorted`. -/
def stringLE (a b : String) : Bool :=
  !stringLT b a

/-- Modelled from the spec: `beautify_name` (defined in
`config/reference/generate/config.py`) applies the ordered
pattern-to-substitution rules in sequence and trims surrounding whitespace;
the trim is forced by the source file's own doctest
`beautify_view_name('Rec. 709 (100 nits) dim') == 'Rec. 709'`. -/
def beautify_name (name : String) (patterns : List (String × String)) : String :=
  stripString (patterns.foldl (fun acc pr => replaceAll acc pr.1 pr.2) name)

/-- The view-name substitution patterns of the source file.  The source
writes the patterns as regexes in which every metacharacter is escaped, so
each pattern matches exactly its literal unescaped text, given here. -/
def VIEW_NAME_SUBSTITUTION_PATTERNS : List (String × String) :=
  [("(100 nits) dim", ""),
   ("(100 nits)", ""),
   ("(48 nits)", ""),
   ("Output" ++ ACES_CONFIG_COLORSPACE_NAME_SEPARATOR, "")]

/-- `beautify_view_name` from the source file: apply the view-name
substitution patterns in succession. -/
def beautify_view_name (name : String) : String :=
  beautify_name name VIEW_NAME_SUBSTITUTION_PATTERNS

/-- Modelled from the spec: `beautify_display_name` (defined in
`config/reference/generate/config.py`) derives a display name from a genus
tag with the same substitution mechanism; the spec leaves its rule table to
the implementation, so it is modelled with an empty rule table. -/
def beautify_display_name (name : String) : String :=
  beautify_name name []

/-! ## The conversion graph

The graph is built by external collaborators
(`build_aces_conversion_graph` and the discovery module); the core treats it
as read-only.  A node carries the hierarchical id, the family tag and the
genus tag of its originating CTL transform.
-/

/-- A node of the conversion graph. -/
structure GraphNode where
  id : String
  family : String
  genus : String
deriving DecidableEq, Repr

/-- The directed conversion graph: nodes in insertion order and directed
edges (source id, target id) in insertion order. -/
structure ConversionGraph where
  nodes : List GraphNode
  edges : List (String × String)
deriving DecidableEq, Repr

/-- The successors of a node, in edge insertion order. -/
def adjacency (g : ConversionGraph) (n : String) : List String :=
  (g.edges.filter (fun e => e.1 = n)).map (fun e => e.2)

/-- Modelled from the spec: `filter_nodes` (defined in the discovery module)
returns the graph nodes satisfying all given predicates, in the graph's own
node order. -/
def filter_nodes (g : ConversionGraph) (preds : List (GraphNode → Bool)) :
    List GraphNode :=
  g.nodes.filter (fun n => preds.all (fun p => p n))

/-- Modelled from the spec: `node_to_ctl_transform` (defined in the discovery
module) returns the CTL transform object a node was built from; it is
represented by the node's own id and genus.  A lookup miss (impossible for
nodes taken from the graph) falls back to an empty genus. -/
structure CTLTransform where
  name : String
  genus : String
deriving DecidableEq, Repr

/-- The CTL transform that a graph node originates from. -/
def node_to_ctl_transform (g : ConversionGraph) (node : String) : CTLTransform :=
  match g.nodes.find? (fun n => n.id = node) with
  | some n => { name := n.id, genus := n.genus }
  | none => { name := node, genus := "" }

/-! ## Shortest-path queries

`conversion_path` is defined in the repository's discovery module (not under
the source file), wrapping NetworkX's shortest-path query; it is modelled
from the spec: it returns the edge list of a shortest path from source to
target, an empty edge list when source equals target, and a no-path signal
(`none`) when the target is unreachable.  Tie-breaking is deterministic in
the graph's adjacency order, which the spec explicitly allows.
-/

/-- All adjacency walks of exactly `n` edges starting at `s`, each given as
its edge list, enumerated in adjacency order. -/
def walksFrom (g : ConversionGraph) : Nat → String → List (List (String × String))
  | 0, _ => [[]]
  | n + 1, s =>
    (adjacency g s).flatMap (fun v =>
      (walksFrom g n v).map (fun w => (s, v) :: w))

/-- The endpoint of an edge walk that starts at `s`. -/
def walkEnd (s : String) (w : List (String × String)) : String :=
  match w.getLast? with
  | some e => e.2
  | none => s

/-- Search for a walk from `s` to `t`, trying lengths `k, k + 1, ...` while
fuel remains and returning the first walk found, so the result has minimal
length. -/
def findWalk (g : ConversionGraph) (s t : String) (k : Nat) : Nat →
    Option (List (String × String))
  | 0 => none
  | fuel + 1 =>
    match (walksFrom g k s).find? (fun w => walkEnd s w = t) with
    | some w => some w
    | none => findWalk g s t (k + 1) fuel

/-- Modelled from the spec: `conversion_path` returns the edge list of a
shortest path from `source` to `target`, or `none` when no path exists.  A
shortest path, when one exists, has fewer edges than the graph has nodes, so
trying every length up to the node count is exhaustive. -/
def conversion_path (g : ConversionGraph) (source target : String) :
    Option (List (String × String)) :=
  findWalk g source target 0 (g.nodes.length + 1)

/-! ## Transforms

`create_builtin_transform` wraps the external OpenColorIO style registry:
setting an unknown style raises, in which case the source substitutes a
`FileTransform` placeholder whose source is the raw style string.  The
registry is modelled as a predicate `known` on style strings.
-/

/-- A single OpenColorIO transform as built here: a builtin transform with a
style, or the placeholder file transform with a source string. -/
inductive ElementaryTransform where
  | builtin (style : String)
  | file (src : String)
deriving DecidableEq, Repr

/-- The result of `node_to_builtin_transform`: a single elementary transform
or a group of them. -/
inductive OCIOTransform where
  | single (t : ElementaryTransform)
  | group (ts : List ElementaryTransform)
deriving DecidableEq, Repr

/-- `create_builtin_transform` from the source file: try to set the style; on
failure (unknown style) log a warning and substitute a `FileTransform`
placeholder whose source is the style string.  Never fails. -/
def create_builtin_transform (known : String → Bool) (style : String) :
    ElementaryTransform :=
  if known style then
    ElementaryTransform.builtin style
  else
    ElementaryTransform.file style

/-- The elementary transform style of one path edge, from the source file:
last segment of the source id, the separator, last segment of the target
id. -/
def edge_transform_style (edge : String × String) : String :=
  lastSegment edge.1 ++ ACES_CONFIG_BUILTIN_TRANSFORM_NAME_SEPARATOR
    ++ lastSegment edge.2

/-- The `transform_styles` list accumulated over the path in the source
file's edge loop. -/
def transform_styles (path : List (String × String)) : List String :=
  path.map edge_transform_style

/-- The transform-building tail of `node_to_builtin_transform`: an empty path
yields no transform (`if not path: return`); one style yields that builtin
transform alone; several styles yield a group transform holding the per-edge
transforms in path order. -/
def path_to_builtin_transform (known : String → Bool)
    (path : List (String × String)) : Option OCIOTransform :=
  if path = [] then
    none
  else
    match transform_styles path with
    | [style] => some (OCIOTransform.single (create_builtin_transform known style))
    | styles => some (OCIOTransform.group
        (styles.map (create_builtin_transform known)))

/-- `node_to_builtin_transform` from the source file: pick the path endpoints
from the direction (`Forward` queries node to reference, anything else
queries reference to node), run the shortest-path query (a no-path signal
becomes `none`), then build the transform from the edge path. -/
def node_to_builtin_transform (known : String → Bool) (g : ConversionGraph)
    (node : String) (direction : String) : Option OCIOTransform :=
  let endpoints :=
    if lowerString direction = "forward" then
      (node, ACES_CONFIG_REFERENCE_COLORSPACE)
    else
      (ACES_CONFIG_REFERENCE_COLORSPACE, node)
  (conversion_path g endpoints.1 endpoints.2).bind (path_to_builtin_transform known)

/-! ## Colorspaces and configuration data

`colorspace_factory`, `ctl_transform_to_colorspace`, `ConfigData` and
`generate_config` come from other modules of the repository
(`config/generation` and `config/reference/generate/config.py`) and are
modelled from the spec.
-/

/-- The description-verbosity option: the spec enumerates
{SHORT, LONG} x {SINGLE, UNION}. -/
inductive ColorspaceDescriptionStyle where
  | SHORT
  | SHORT_UNION
  | LONG
  | LONG_UNION
deriving DecidableEq, Repr

/-- A colorspace entry: name, family, description, the two optional transform
chains and the non-color-data flag. -/
structure ColorSpace where
  name : String
  family : String
  description : String
  to_reference : Option OCIOTransform
  from_reference : Option OCIOTransform
  is_data : Bool
deriving DecidableEq, Repr

/-- Modelled from the spec: `colorspace_factory` (defined in
`config/generation`) assembles a colorspace entry from its fields. -/
def colorspace_factory (name family description : String)
    (to_reference from_reference : Option OCIOTransform) (is_data : Bool) :
    ColorSpace :=
  { name := name, family := family, description := description,
    to_reference := to_reference, from_reference := from_reference,
    is_data := is_data }

/-- Modelled from the spec: `ctl_transform_to_colorspace` (defined in
`config/reference/generate/config.py`) builds the colorspace entry of a CTL
transform: a name derived from the node, a description whose verbosity
follows the description style, and the two transform chains as given. -/
def ctl_transform_to_colorspace (ctl : CTLTransform)
    (describe : ColorspaceDescriptionStyle)
    (to_reference from_reference : Option OCIOTransform) : ColorSpace :=
  let description :=
    match describe with
    | ColorspaceDescriptionStyle.SHORT => lastSegment ctl.name
    | ColorspaceDescriptionStyle.SHORT_UNION => lastSegment ctl.name
    | ColorspaceDescriptionStyle.LONG => ctl.name
    | ColorspaceDescriptionStyle.LONG_UNION => ctl.name
  colorspace_factory (lastSegment ctl.name) "CTL" description
    to_reference from_reference false

/-- `node_to_colorspace` from the source file: look up the node's CTL
transform and build its colorspace with the forward chain as `to_reference`
and the reverse chain as `from_reference`. -/
def node_to_colorspace (known : String → Bool) (g : ConversionGraph)
    (node : String) (describe : ColorspaceDescriptionStyle) : ColorSpace :=
  let ctl := node_to_ctl_transform g node
  ctl_transform_to_colorspace ctl describe
    (node_to_builtin_transform known g node "Forward")
    (node_to_builtin_transform known g node "Reverse")

/-- A (display, view, colorspace) triple as appended to `views`. -/
structure ViewEntry where
  display : String
  view : String
  colorspace : String
deriving DecidableEq, Repr

/-- Modelled from the spec: `ConfigData` (defined in `config/generation`)
aggregates the configuration record. -/
structure ConfigData where
  description : String
  roles : List (String × String)
  colorspaces : List ColorSpace
  views : List ViewEntry
  active_displays : List String
  active_views : List String
  file_rules : List (String × String)
  profile_version : Nat
deriving DecidableEq, Repr

/-- Modelled from the spec: the OpenColorIO scene-linear role name constant
`ocio.ROLE_SCENE_LINEAR`. -/
def ROLE_SCENE_LINEAR : String := "scene_linear"

/-- Modelled from the spec: the external serializer/validator
`generate_config` (defined in `config/generation`) turns the assembled data
into the config artifact handed back to the caller; writing to disk and
validation are I/O and are not modelled. -/
structure Config where
  data : ConfigData
deriving DecidableEq, Repr

/-- The serializer/validator collaborator. -/
def generate_config (data : ConfigData) : Config :=
  { data := data }

/-! ## The classification loop of `generate_config_aces` -/

/-- Add an element to a Python `set` modelled as a duplicate-free list. -/
def setAdd (l : List String) (x : String) : List String :=
  if x ∈ l then l else l ++ [x]

/-- The mutable state of the classification loop: the `colorspaces`,
`displays`, `views` and `colorspaces_to_ctl_transforms` accumulators. -/
structure ClassifyState where
  colorspaces : List ColorSpace
  displays : List String
  views : List ViewEntry
  mapping : List (ColorSpace × CTLTransform)
deriving DecidableEq, Repr

/-- One iteration of the inner node loop: skip the two reference nodes,
otherwise build the node's colorspace, append it to `family_colourspaces`
(the first component), and for the output family record the display (a set
add) and the view triple; in additional-data mode also record the colorspace
to CTL transform association. -/
def classify_node (known : String → Bool) (g : ConversionGraph)
    (describe : ColorspaceDescriptionStyle) (additional_data : Bool)
    (family : String) (acc : List ColorSpace × ClassifyState)
    (node : GraphNode) : List ColorSpace × ClassifyState :=
  if node.id = ACES_CONFIG_REFERENCE_COLORSPACE ∨
      node.id = ACES_CONFIG_OUTPUT_ENCODING_COLORSPACE then
    acc
  else
    let colorspace := node_to_colorspace known g node.id describe
    let fam := acc.1 ++ [colorspace]
    let st := acc.2
    let st :=
      if family = "output_transform" then
        let display := beautify_display_name (node_to_ctl_transform g node.id).genus
        { st with
          displays := setAdd st.displays display,
          views := st.views ++ [ViewEntry.mk display
            (beautify_view_name colorspace.name) colorspace.name] }
      else st
    let st :=
      if additional_data then
        { st with mapping := st.mapping ++
            [(colorspace, node_to_ctl_transform g node.id)] }
      else st
    (fam, st)

/-- One iteration of the outer family loop: run the node loop on the nodes of
this family with an empty `family_colourspaces`, then append the family's
colorspaces to the state. -/
def classify_family (known : String → Bool) (g : ConversionGraph)
    (describe : ColorspaceDescriptionStyle) (additional_data : Bool)
    (st : ClassifyState) (family : String) : ClassifyState :=
  let r := (filter_nodes g [fun x => x.family = family]).foldl
    (classify_node known g describe additional_data family) ([], st)
  { r.2 with colorspaces := r.2.colorspaces ++ r.1 }

/-- The scene-reference colorspace entry of the source file. -/
def scene_reference_colorspace : ColorSpace :=
  colorspace_factory ("CSC" ++ ACES_CONFIG_COLORSPACE_NAME_SEPARATOR
      ++ ACES_CONFIG_REFERENCE_COLORSPACE) "ACES"
    "The \x22Academy Color Encoding System\x22 reference colorspace."
    none none false

/-- The display-reference colorspace entry of the source file, carrying the
reverse chain resolved from the display reference node. -/
def display_reference_colorspace (known : String → Bool)
    (g : ConversionGraph) : ColorSpace :=
  colorspace_factory ("CSC" ++ ACES_CONFIG_COLORSPACE_NAME_SEPARATOR
      ++ ACES_CONFIG_OUTPUT_ENCODING_COLORSPACE) "ACES"
    "The \x22Output Color Encoding Specification\x22 colorspace."
    none
    (node_to_builtin_transform known g
      ACES_CONFIG_OUTPUT_ENCODING_COLORSPACE "Reverse")
    false

/-- The utility `Raw` colorspace entry of the source file. -/
def raw_colorspace : ColorSpace :=
  colorspace_factory ("Utility" ++ ACES_CONFIG_COLORSPACE_NAME_SEPARATOR
      ++ "Raw") "Utility"
    "The utility \x22Raw\x22 colorspace." none none true

/-- The families iterated by the classification loop, in declared order. -/
def CLASSIFICATION_FAMILIES : List String :=
  ["csc", "input_transform", "lmt", "output_transform"]

/-- The full classification loop, starting from the three prepended
colorspaces and empty accumulators. -/
def classify_all (known : String → Bool) (g : ConversionGraph)
    (describe : ColorspaceDescriptionStyle) (additional_data : Bool) :
    ClassifyState :=
  CLASSIFICATION_FAMILIES.foldl
    (classify_family known g describe additional_data)
    { colorspaces := [scene_reference_colorspace,
        display_reference_colorspace known g, raw_colorspace],
      displays := [], views := [], mapping := [] }

/-! ## Sorting, display pinning and active views -/

/-- The sort key order of the view sort: Python `sorted` with key
`(display, view)`, i.e. lexicographic comparison of the pair. -/
def viewKeyLE (a b : ViewEntry) : Prop :=
  stringLT a.display b.display = true ∨
    (a.display = b.display ∧ stringLE a.view b.view = true)

instance : DecidableRel viewKeyLE := fun a b => by
  unfold viewKeyLE
  infer_instance

/-- `views = sorted(views, key=lambda x: (x['display'], x['view']))` from the
source file, modelled with a stable insertion sort. -/
def sort_views (views : List ViewEntry) : List ViewEntry :=
  List.insertionSort viewKeyLE views

/-- `displays = sorted(list(displays))` from the source file: ascending
lexicographic sort of the collected display set. -/
def sort_displays (displays : List String) : List String :=
  List.insertionSort (fun a b => stringLE a b = true) displays

/-- The sRGB pinning of the source file: if `sRGB` is present, pop its first
occurrence and re-insert it at the front. -/
def pin_srgb (displays : List String) : List String :=
  if "sRGB" ∈ displays then "sRGB" :: displays.erase "sRGB" else displays

/-- Lines 323-325 of the source file: sort the collected display names and
pin `sRGB` first when present. -/
def displays_final (displays : List String) : List String :=
  pin_srgb (sort_displays displays)

/-- The synthetic per-display `Raw` views appended after the classified
views, in final display order. -/
def raw_views (displays : List String) : List ViewEntry :=
  displays.map (fun display =>
    ViewEntry.mk display (beautify_view_name raw_colorspace.name)
      raw_colorspace.name)

/-- `list(dict.fromkeys(...))` from the source file: remove duplicates,
keeping the first occurrence of each element. -/
def dedupFirstAux (seen : List String) : List String → List String
  | [] => []
  | x :: xs =>
    if x ∈ seen then
      dedupFirstAux seen xs
    else
      x :: dedupFirstAux (x :: seen) xs

/-- Duplicate removal preserving first-seen order. -/
def dedupKeepFirst (l : List String) : List String :=
  dedupFirstAux [] l

/-! ## `generate_config_aces` -/

/-- The views list of the assembled record: the sorted classified views
followed by the synthetic `Raw` views. -/
def generate_views (st : ClassifyState) : List ViewEntry :=
  sort_views st.views ++ raw_views (displays_final st.displays)

/-- The `ConfigData` record assembled by `generate_config_aces` from the
classification state. -/
def generate_config_aces_data (known : String → Bool) (g : ConversionGraph)
    (describe : ColorspaceDescriptionStyle) (additional_data : Bool) :
    ConfigData :=
  let st := classify_all known g describe additional_data
  let views := generate_views st
  { description :=
      "The \x22Academy Color Encoding System\x22 reference config.",
    roles := [(ROLE_SCENE_LINEAR,
      "CSC" ++ ACES_CONFIG_COLORSPACE_NAME_SEPARATOR ++ "ACEScg")],
    colorspaces := st.colorspaces,
    views := views,
    active_displays := displays_final st.displays,
    active_views := dedupKeepFirst (views.map (fun v => v.view)),
    file_rules := [("Default",
      "CSC" ++ ACES_CONFIG_COLORSPACE_NAME_SEPARATOR ++ "ACEScg")],
    profile_version := 2 }

/-- The value returned by `generate_config_aces`: the config alone, or the
triple of config, data record and colorspace-to-CTL-transform mapping. -/
inductive GenerateResult where
  | single (config : Config)
  | withData (config : Config) (data : ConfigData)
      (mapping : List (ColorSpace × CTLTransform))
deriving DecidableEq, Repr

/-- `generate_config_aces` from the source file, as a function of the
externally built conversion graph and the style registry: classify the graph,
assemble the data record, serialize it, and return either the config alone or
the triple with the data record and the mapping. -/
def generate_config_aces (known : String → Bool) (g : ConversionGraph)
    (describe : ColorspaceDescriptionStyle) (additional_data : Bool) :
    GenerateResult :=
  let st := classify_all known g describe additional_data
  let data := generate_config_aces_data known g describe additional_data
  let config := generate_config data
  if additional_data then
    GenerateResult.withData config data st.mapping
  else
    GenerateResult.single config

/-! ## Properties of the shortest-path query -/

/-- An edge list is an adjacency walk starting at `s`: each edge starts where
the previous one (or `s`) ended and is an edge of the graph. -/
def isWalk (g : ConversionGraph) : String → List (String × String) → Bool
  | _, [] => true
  | s, e :: rest =>
    decide (e.1 = s) && decide (e.2 ∈ adjacency g e.1) && isWalk g e.2 rest

theorem walkEnd_nil (s : String) : walkEnd s [] = s := rfl

theorem walkEnd_cons (s : String) (e : String × String)
    (w : List (String × String)) : walkEnd s (e :: w) = walkEnd e.2 w := by
  cases w with
  | nil => rfl
  | cons f fs => simp [walkEnd, List.getLast?]

theorem walksFrom_sound (g : ConversionGraph) :
    ∀ (n : Nat) (s : String) (w : List (String × String)),
      w ∈ walksFrom g n s → w.length = n ∧ isWalk g s w = true := by
  intro n
  induction n with
  | zero =>
    intro s w hw
    simp [walksFrom] at hw
    simp [hw, isWalk]
  | succ m ih =>
    intro s w hw
    simp only [walksFrom, List.mem_flatMap, List.mem_map] at hw
    obtain ⟨v, hv, w', hw', rfl⟩ := hw
    obtain ⟨hlen, hwalk⟩ := ih v w' hw'
    refine ⟨by simp [hlen], ?_⟩
    simp [isWalk, hv, hwalk]

theorem walksFrom_complete (g : ConversionGraph) :
    ∀ (w : List (String × String)) (s : String),
      isWalk g s w = true → w ∈ walksFrom g w.length s := by
  intro w
  induction w with
  | nil => intro s _; simp [walksFrom]
  | cons e rest ih =>
    intro s hw
    simp only [isWalk, Bool.and_eq_true, decide_eq_true_eq] at hw
    obtain ⟨⟨h1, h2⟩, h3⟩ := hw
    simp only [List.length_cons, walksFrom, List.mem_flatMap, List.mem_map]
    refine ⟨e.2, by rw [h1] at h2; exact h2, rest, ih e.2 h3, ?_⟩
    simp [← h1]

theorem findWalk_spec (g : ConversionGraph) (s t : String) :
    ∀ (fuel k : Nat) (w : List (String × String)),
      findWalk g s t k fuel = some w →
      isWalk g s w = true ∧ walkEnd s w = t ∧
        ∀ w', isWalk g s w' = true → walkEnd s w' = t →
          k ≤ w'.length → w.length ≤ w'.length := by
  intro fuel
  induction fuel with
  | zero => intro k w h; simp [findWalk] at h
  | succ m ih =>
    intro k w h
    simp only [findWalk] at h
    cases hfind : (walksFrom g k s).find? (fun w => walkEnd s w = t) with
    | some w0 =>
      rw [hfind] at h
      have hw0 : w0 = w := Option.some.inj h
      subst hw0
      have hmem := List.mem_of_find?_eq_some hfind
      have hpred := List.find?_some hfind
      rw [decide_eq_true_eq] at hpred
      obtain ⟨hlen, hwalk⟩ := walksFrom_sound g k s w0 hmem
      refine ⟨hwalk, hpred, ?_⟩
      intro w' _ _ hk
      rw [hlen]
      exact hk
    | none =>
      rw [hfind] at h
      obtain ⟨hwalk, hend, hmin⟩ := ih (k + 1) w h
      refine ⟨hwalk, hend, ?_⟩
      intro w' hw' hend' hk
      rcases Nat.eq_or_lt_of_le hk with heq | hlt
      · exfalso
        have hmem : w' ∈ walksFrom g k s := by
          rw [heq]
          exact walksFrom_complete g w' s hw'
        have := List.find?_eq_none.mp hfind w' hmem
        simp [hend'] at this
      · exact hmin w' hw' hend' hlt

theorem conversion_path_spec (g : ConversionGraph) (s t : String)
    (w : List (String × String))
    (h : conversion_path g s t = some w) :
    isWalk g s w = true ∧ walkEnd s w = t ∧
      ∀ w', isWalk g s w' = true → walkEnd s w' = t →
        w.length ≤ w'.length := by
  obtain ⟨hwalk, hend, hmin⟩ :=
    findWalk_spec g s t (g.nodes.length + 1) 0 w h
  exact ⟨hwalk, hend, fun w' h1 h2 => hmin w' h1 h2 (Nat.zero_le _)⟩

/-! ## Normal form of the classification loop -/

/-- The non-reference nodes of a node list, in order: the nodes the loop does
not skip. -/
def qualFilter (nodes : List GraphNode) : List GraphNode :=
  nodes.filter (fun n =>
    decide ¬(n.id = ACES_CONFIG_REFERENCE_COLORSPACE ∨
      n.id = ACES_CONFIG_OUTPUT_ENCODING_COLORSPACE))

/-- The display name recorded for an output-family node. -/
def nodeDisplay (g : ConversionGraph) (n : GraphNode) : String :=
  beautify_display_name (node_to_ctl_transform g n.id).genus

/-- The view entry recorded for an output-family node. -/
def nodeView (known : String → Bool) (g : ConversionGraph)
    (describe : ColorspaceDescriptionStyle) (n : GraphNode) : ViewEntry :=
  ViewEntry.mk (nodeDisplay g n)
    (beautify_view_name (node_to_colorspace known g n.id describe).name)
    (node_to_colorspace known g n.id describe).name

/-- The colorspace-to-CTL-transform association recorded for a node. -/
def nodePair (known : String → Bool) (g : ConversionGraph)
    (describe : ColorspaceDescriptionStyle) (n : GraphNode) :
    ColorSpace × CTLTransform :=
  (node_to_colorspace known g n.id describe, node_to_ctl_transform g n.id)

/-- The nodes of one family that the loop processes. -/
def familyQual (g : ConversionGraph) (family : String) : List GraphNode :=
  qualFilter (filter_nodes g [fun x => x.family = family])

/-- All nodes that contribute a classified colorspace, in processing order:
family by family, skipping the two reference nodes. -/
def qualifying_nodes (g : ConversionGraph) : List GraphNode :=
  CLASSIFICATION_FAMILIES.flatMap (familyQual g)

theorem classify_node_foldl (known : String → Bool) (g : ConversionGraph)
    (describe : ColorspaceDescriptionStyle) (ad : Bool) (family : String) :
    ∀ (nodes : List GraphNode) (fam : List ColorSpace) (st : ClassifyState),
      nodes.foldl (classify_node known g describe ad family) (fam, st) =
        (fam ++ (qualFilter nodes).map
            (fun n => node_to_colorspace known g n.id describe),
         { colorspaces := st.colorspaces,
           displays :=
             if family = "output_transform" then
               (qualFilter nodes).foldl
                 (fun d n => setAdd d (nodeDisplay g n)) st.displays
             else st.displays,
           views := st.views ++
             (if family = "output_transform" then
               (qualFilter nodes).map (nodeView known g describe)
             else []),
           mapping := st.mapping ++
             (if ad then (qualFilter nodes).map (nodePair known g describe)
             else []) }) := by
  intro nodes
  induction nodes with
  | nil =>
    intro fam st
    simp [qualFilter]
  | cons n ns ih =>
    intro fam st
    by_cases href : n.id = ACES_CONFIG_REFERENCE_COLORSPACE ∨
        n.id = ACES_CONFIG_OUTPUT_ENCODING_COLORSPACE
    · have hq : qualFilter (n :: ns) = qualFilter ns := by
        rcases href with h | h
        · simp [qualFilter, h]
        · simp [qualFilter, h]
      have hstep : classify_node known g describe ad family (fam, st) n =
          (fam, st) := by
        simp [classify_node, href]
      rw [List.foldl_cons, hq, hstep, ih]
    · obtain ⟨h1, h2⟩ := not_or.mp href
      have hq : qualFilter (n :: ns) = n :: qualFilter ns := by
        simp [qualFilter, h1, h2]
      rw [List.foldl_cons, hq]
      by_cases hfam : family = "output_transform"
      · cases ad with
        | false =>
          have hstep : classify_node known g describe false family (fam, st) n =
              (fam ++ [node_to_colorspace known g n.id describe],
               { st with
                 displays := setAdd st.displays (nodeDisplay g n),
                 views := st.views ++ [nodeView known g describe n] }) := by
            simp [classify_node, href, hfam, nodeDisplay, nodeView]
          rw [hstep, ih]
          simp [hfam, List.append_assoc]
        | true =>
          have hstep : classify_node known g describe true family (fam, st) n =
              (fam ++ [node_to_colorspace known g n.id describe],
               { st with
                 displays := setAdd st.displays (nodeDisplay g n),
                 views := st.views ++ [nodeView known g describe n],
                 mapping := st.mapping ++ [nodePair known g describe n] }) := by
            simp [classify_node, href, hfam, nodeDisplay, nodeView, nodePair]
          rw [hstep, ih]
          simp [hfam, List.append_assoc]
      · cases ad with
        | false =>
          have hstep : classify_node known g describe false family (fam, st) n =
              (fam ++ [node_to_colorspace known g n.id describe], st) := by
            simp [classify_node, href, hfam]
          rw [hstep, ih]
          simp [hfam, List.append_assoc]
        | true =>
          have hstep : classify_node known g describe true family (fam, st) n =
              (fam ++ [node_to_colorspace known g n.id describe],
               { st with
                 mapping := st.mapping ++ [nodePair known g describe n] }) := by
            simp [classify_node, href, hfam, nodePair]
          rw [hstep, ih]
          simp [hfam, List.append_assoc]

theorem classify_family_eq (known : String → Bool) (g : ConversionGraph)
    (describe : ColorspaceDescriptionStyle) (ad : Bool) (st : ClassifyState)
    (family : String) :
    classify_family known g describe ad st family =
      { colorspaces := st.colorspaces ++ (familyQual g family).map
          (fun n => node_to_colorspace known g n.id describe),
        displays :=
          if family = "output_transform" then
            (familyQual g family).foldl
              (fun d n => setAdd d (nodeDisplay g n)) st.displays
          else st.displays,
        views := st.views ++
          (if family = "output_transform" then
            (familyQual g family).map (nodeView known g describe)
          else []),
        mapping := st.mapping ++
          (if ad then (familyQual g family).map (nodePair known g describe)
          else []) } := by
  unfold classify_family
  rw [classify_node_foldl]
  simp [familyQual]

theorem classify_all_eq (known : String → Bool) (g : ConversionGraph)
    (describe : ColorspaceDescriptionStyle) (ad : Bool) :
    classify_all known g describe ad =
      { colorspaces := [scene_reference_colorspace,
          display_reference_colorspace known g, raw_colorspace] ++
          (qualifying_nodes g).map
            (fun n => node_to_colorspace known g n.id describe),
        displays := (familyQual g "output_transform").foldl
          (fun d n => setAdd d (nodeDisplay g n)) [],
        views := (familyQual g "output_transform").map
          (nodeView known g describe),
        mapping :=
          if ad then (qualifying_nodes g).map (nodePair known g describe)
          else [] } := by
  unfold classify_all
  simp only [CLASSIFICATION_FAMILIES, List.foldl_cons, List.foldl_nil]
  rw [classify_family_eq, classify_family_eq, classify_family_eq,
    classify_family_eq]
  cases ad with
  | false => simp [qualifying_nodes, CLASSIFICATION_FAMILIES, familyQual,
      List.append_assoc]
  | true => simp [qualifying_nodes, CLASSIFICATION_FAMILIES, familyQual,
      List.append_assoc]

/-! ## Order theory of the lexicographic string comparison -/

theorem charListLT_asymm :
    ∀ x y : List Char, charListLT x y = true → charListLT y x = false := by
  intro x
  induction x with
  | nil =>
    intro y h
    cases y with
    | nil => simp [charListLT] at h
    | cons b bs => simp [charListLT]
  | cons a as ih =>
    intro y h
    cases y with
    | nil => simp [charListLT] at h
    | cons b bs =>
      simp only [charListLT] at h ⊢
      by_cases h1 : a.toNat < b.toNat
      · have h2 : ¬b.toNat < a.toNat := by omega
        simp [h1, h2]
      · by_cases h2 : b.toNat < a.toNat
        · simp [h1, h2] at h
        · simp only [h1, h2, if_false] at h ⊢
          simp [ih bs h]

theorem charListLT_trans :
    ∀ x y z : List Char, charListLT x y = true → charListLT y z = true →
      charListLT x z = true := by
  intro x
  induction x with
  | nil =>
    intro y z h1 h2
    cases z with
    | nil =>
      cases y with
      | nil => simp [charListLT] at h1
      | cons b bs => simp [charListLT] at h2
    | cons c cs => simp [charListLT]
  | cons a as ih =>
    intro y z h1 h2
    cases y with
    | nil => simp [charListLT] at h1
    | cons b bs =>
      cases z with
      | nil => simp [charListLT] at h2
      | cons c cs =>
        simp only [charListLT] at h1 h2 ⊢
        by_cases hab : a.toNat < b.toNat
        · by_cases hbc : b.toNat < c.toNat
          · have : a.toNat < c.toNat := by omega
            simp [this]
          · by_cases hcb : c.toNat < b.toNat
            · simp [hbc, hcb] at h2
            · have hbc2 : b.toNat = c.toNat := by omega
              have : a.toNat < c.toNat := by omega
              simp [this]
        · by_cases hba : b.toNat < a.toNat
          · simp [hab, hba] at h1
          · have hab2 : a.toNat = b.toNat := by omega
            simp only [hab, hba, if_false] at h1
            by_cases hbc : b.toNat < c.toNat
            · have : a.toNat < c.toNat := by omega
              simp [this]
            · by_cases hcb : c.toNat < b.toNat
              · simp [hbc, hcb] at h2
              · simp only [hbc, hcb, if_false] at h2
                have hac : ¬a.toNat < c.toNat := by omega
                have hca : ¬c.toNat < a.toNat := by omega
                simp only [hac, hca, if_false]
                exact ih bs cs h1 h2

theorem charListLT_conn :
    ∀ x y : List Char, charListLT x y = false → charListLT y x = false →
      x = y := by
  intro x
  induction x with
  | nil =>
    intro y h1 _
    cases y with
    | nil => rfl
    | cons b bs => simp [charListLT] at h1
  | cons a as ih =>
    intro y h1 h2
    cases y with
    | nil => simp [charListLT] at h2
    | cons b bs =>
      simp only [charListLT] at h1 h2
      by_cases hab : a.toNat < b.toNat
      · simp [hab] at h1
      · by_cases hba : b.toNat < a.toNat
        · simp [hab, hba] at h2
        · simp only [hab, hba, if_false] at h1 h2
          have hchar : a = b := by
            have : a.toNat = b.toNat := by omega
            unfold Char.toNat at this
            exact Char.eq_of_val_eq (UInt32.toNat.inj this)
          rw [hchar, ih bs h1 h2]

theorem stringLE_total (a b : String) :
    stringLE a b = true ∨ stringLE b a = true := by
  unfold stringLE stringLT
  by_cases h : charListLT b.toList a.toList = true
  · right
    have := charListLT_asymm b.toList a.toList h
    simp only [String.toList] at this ⊢
    simp [this]
  · left
    have : charListLT b.toList a.toList = false := by
      cases hb : charListLT b.toList a.toList
      · rfl
      · exact absurd hb h
    simp only [String.toList] at this ⊢
    simp [this]

theorem stringLE_trans (a b c : String) (h1 : stringLE a b = true)
    (h2 : stringLE b c = true) : stringLE a c = true := by
  simp only [stringLE, stringLT, Bool.not_eq_true'] at h1 h2 ⊢
  cases hca : charListLT c.toList a.toList with
  | false => rfl
  | true =>
    exfalso
    cases hab : charListLT a.toList b.toList with
    | true =>
      have := charListLT_trans c.toList a.toList b.toList hca hab
      rw [h2] at this
      exact Bool.false_ne_true this
    | false =>
      have hab2 : a.toList = b.toList :=
        charListLT_conn a.toList b.toList hab h1
      rw [hab2, h2] at hca
      exact absurd hca (by simp)

instance : IsTotal String (fun a b => stringLE a b = true) :=
  ⟨stringLE_total⟩

instance : IsTrans String (fun a b => stringLE a b = true) :=
  ⟨stringLE_trans⟩

theorem sort_displays_sorted (l : List String) :
    (sort_displays l).Sorted (fun a b => stringLE a b = true) :=
  List.sorted_insertionSort (fun a b => stringLE a b = true) l

theorem sort_displays_perm (l : List String) :
    List.Perm (sort_displays l) l :=
  List.perm_insertionSort (fun a b => stringLE a b = true) l

theorem sort_views_perm (l : List ViewEntry) :
    List.Perm (sort_views l) l :=
  List.perm_insertionSort viewKeyLE l

/-! ## Properties of first-seen duplicate removal -/

theorem dedupFirstAux_mem :
    ∀ (l seen : List String) (x : String),
      x ∈ dedupFirstAux seen l → x ∈ l ∧ x ∉ seen := by
  intro l
  induction l with
  | nil => intro seen x hx; simp [dedupFirstAux] at hx
  | cons c cs ih =>
    intro seen x hx
    by_cases hc : c ∈ seen
    · rw [dedupFirstAux, if_pos hc] at hx
      obtain ⟨h1, h2⟩ := ih seen x hx
      exact ⟨List.mem_cons_of_mem c h1, h2⟩
    · rw [dedupFirstAux, if_neg hc] at hx
      rcases List.mem_cons.mp hx with rfl | hx2
      · exact ⟨List.mem_cons_self x cs, hc⟩
      · obtain ⟨h1, h2⟩ := ih (c :: seen) x hx2
        exact ⟨List.mem_cons_of_mem c h1,
          fun hs => h2 (List.mem_cons_of_mem c hs)⟩

theorem dedupFirstAux_mem_of :
    ∀ (l seen : List String) (x : String),
      x ∈ l → x ∉ seen → x ∈ dedupFirstAux seen l := by
  intro l
  induction l with
  | nil => intro seen x hx; simp at hx
  | cons c cs ih =>
    intro seen x hx hseen
    by_cases hc : c ∈ seen
    · rw [dedupFirstAux, if_pos hc]
      rcases List.mem_cons.mp hx with rfl | hx2
      · exact absurd hc hseen
      · exact ih seen x hx2 hseen
    · rw [dedupFirstAux, if_neg hc]
      rcases List.mem_cons.mp hx with rfl | hx2
      · exact List.mem_cons_self x _
      · by_cases hxc : x = c
        · subst hxc
          exact List.mem_cons_self x _
        · refine List.mem_cons_of_mem c (ih (c :: seen) x hx2 ?_)
          intro hs
          rcases List.mem_cons.mp hs with h | h
          · exact hxc h
          · exact hseen h

theorem dedupFirstAux_pairwise :
    ∀ (l seen : List String),
      (dedupFirstAux seen l).Pairwise
        (fun x y => l.indexOf x < l.indexOf y) := by
  intro l
  induction l with
  | nil => intro seen; simp [dedupFirstAux]
  | cons c cs ih =>
    intro seen
    by_cases hc : c ∈ seen
    · rw [dedupFirstAux, if_pos hc]
      refine List.Pairwise.imp_of_mem ?_ (ih seen)
      intro a b ha hb hab
      have ha2 := dedupFirstAux_mem cs seen a ha
      have hb2 := dedupFirstAux_mem cs seen b hb
      have hac : c ≠ a := fun h => ha2.2 (h ▸ hc)
      have hbc : c ≠ b := fun h => hb2.2 (h ▸ hc)
      rw [List.indexOf_cons_ne cs hac, List.indexOf_cons_ne cs hbc]
      exact Nat.succ_lt_succ hab
    · rw [dedupFirstAux, if_neg hc]
      rw [List.pairwise_cons]
      constructor
      · intro y hy
        have hy2 := dedupFirstAux_mem cs (c :: seen) y hy
        have hyc : c ≠ y := fun h => hy2.2 (h ▸ List.mem_cons_self c seen)
        rw [List.indexOf_cons_self, List.indexOf_cons_ne cs hyc]
        exact Nat.succ_pos _
      · refine List.Pairwise.imp_of_mem ?_ (ih (c :: seen))
        intro a b ha hb hab
        have ha2 := dedupFirstAux_mem cs (c :: seen) a ha
        have hb2 := dedupFirstAux_mem cs (c :: seen) b hb
        have hac : c ≠ a := fun h => ha2.2 (h ▸ List.mem_cons_self c seen)
        have hbc : c ≠ b := fun h => hb2.2 (h ▸ List.mem_cons_self c seen)
        rw [List.indexOf_cons_ne cs hac, List.indexOf_cons_ne cs hbc]
        exact Nat.succ_lt_succ hab

theorem dedupKeepFirst_mem_iff (l : List String) (x : String) :
    x ∈ dedupKeepFirst l ↔ x ∈ l := by
  constructor
  · intro hx
    exact (dedupFirstAux_mem l [] x hx).1
  · intro hx
    exact dedupFirstAux_mem_of l [] x hx (List.not_mem_nil x)

theorem dedupKeepFirst_pairwise (l : List String) :
    (dedupKeepFirst l).Pairwise (fun x y => l.indexOf x < l.indexOf y) :=
  dedupFirstAux_pairwise l []

theorem dedupKeepFirst_nodup (l : List String) :
    (dedupKeepFirst l).Nodup := by
  refine (dedupKeepFirst_pairwise l).imp ?_
  intro a b hab
  intro h
  subst h
  exact Nat.lt_irrefl _ hab

/-! ## Concrete instances used to witness and refute claims -/

/-- A style registry that resolves every style. -/
def knownAll : String → Bool := fun _ => true

/-- A graph with a single isolated non-reference node: no transform chain
exists in either direction. -/
def graphIsolated : ConversionGraph :=
  { nodes := [{ id := "csc/A", family := "csc", genus := "g" }], edges := [] }

/-- A three-node cycle through the scene reference node. -/
def graphCycle : ConversionGraph :=
  { nodes := [{ id := "A", family := "csc", genus := "g" },
              { id := "B", family := "csc", genus := "g" },
              { id := "ACES2065-1", family := "csc", genus := "g" }],
    edges := [("A", "B"), ("B", "ACES2065-1"), ("ACES2065-1", "A")] }

/-- A graph in which a node reaches the display reference node but not the
scene reference node. -/
def graphToOCES : ConversionGraph :=
  { nodes := [{ id := "odt/A", family := "output_transform", genus := "sRGB" },
              { id := "OCES", family := "csc", genus := "" }],
    edges := [("odt/A", "OCES")] }

/-- A small complete example graph: a conversion colorspace and two output
transforms around the two reference nodes. -/
def graphFull : ConversionGraph :=
  { nodes :=
      [{ id := "ACES2065-1", family := "csc", genus := "" },
       { id := "OCES", family := "csc", genus := "" },
       { id := "csc/ACEScg", family := "csc", genus := "" },
       { id := "odt/sRGB_100nits", family := "output_transform",
         genus := "sRGB" },
       { id := "odt/Rec709", family := "output_transform",
         genus := "Rec.709" }],
    edges :=
      [("csc/ACEScg", "ACES2065-1"), ("ACES2065-1", "csc/ACEScg"),
       ("ACES2065-1", "OCES"),
       ("OCES", "odt/sRGB_100nits"), ("odt/sRGB_100nits", "ACES2065-1"),
       ("odt/Rec709", "ACES2065-1"), ("ACES2065-1", "odt/Rec709")] }

/-- The resolver as the spec describes it, for comparison with the one
embedded from the source: the spec claims the forward direction finds the
shortest path from the node to the *display reference* node, and the reverse
direction the path from that reference to the node. -/
def node_to_builtin_transform_claimed (known : String → Bool)
    (g : ConversionGraph) (node : String) (direction : String) :
    Option OCIOTransform :=
  let endpoints :=
    if lowerString direction = "forward" then
      (node, ACES_CONFIG_OUTPUT_ENCODING_COLORSPACE)
    else
      (ACES_CONFIG_OUTPUT_ENCODING_COLORSPACE, node)
  (conversion_path g endpoints.1 endpoints.2).bind
    (path_to_builtin_transform known)

/-! ## Claims -/

/-- C1 (counterexample): in `graphIsolated` the node `csc/A` resolves no
transform chain in either direction, yet the generated colorspace list still
contains its entry `A`: the classification loop of `generate_config_aces`
never drops a node for having two empty chains. -/
theorem thm_C1_counterexample :
    node_to_builtin_transform knownAll graphIsolated "csc/A" "Forward" =
      none ∧
    node_to_builtin_transform knownAll graphIsolated "csc/A" "Reverse" =
      none ∧
    (generate_config_aces_data knownAll graphIsolated
        ColorspaceDescriptionStyle.LONG_UNION false).colorspaces.map
      (fun c => c.name) =
      ["CSC - ACES2065-1", "CSC - OCES", "Utility - Raw", "A"] := by
  decide

/-- C1 (as amended): every non-reference node of the four processed families
contributes exactly one colorspace entry to the output list, whether or not
either transform-chain direction resolves; only the two reference nodes are
skipped. -/
theorem thm_C1 (known : String → Bool) (g : ConversionGraph)
    (describe : ColorspaceDescriptionStyle) (ad : Bool) :
    (generate_config_aces_data known g describe ad).colorspaces =
      [scene_reference_colorspace, display_reference_colorspace known g,
        raw_colorspace] ++
      (qualifying_nodes g).map
        (fun n => node_to_colorspace known g n.id describe) := by
  unfold generate_config_aces_data
  rw [classify_all_eq]

/-- C2 (counterexample): in `graphToOCES` a path from `odt/A` to the display
reference node exists, so the resolver the claim describes returns a
transform; the source's resolver instead targets the scene reference node and
returns nothing. -/
theorem thm_C2_counterexample :
    node_to_builtin_transform knownAll graphToOCES "odt/A" "Forward" = none ∧
    node_to_builtin_transform_claimed knownAll graphToOCES "odt/A" "Forward" =
      some (OCIOTransform.single (ElementaryTransform.builtin "A_to_OCES")) := by
  decide

/-- C2 (as amended): the forward direction resolves the shortest path from
the node to the *scene* reference node `ACES_CONFIG_REFERENCE_COLORSPACE`,
and the reverse direction resolves from that reference toward the node;
whenever the query succeeds, the returned edge sequence is an adjacency walk
between those endpoints of minimal length. -/
theorem thm_C2 (known : String → Bool) (g : ConversionGraph) (node : String) :
    node_to_builtin_transform known g node "Forward" =
      (conversion_path g node ACES_CONFIG_REFERENCE_COLORSPACE).bind
        (path_to_builtin_transform known) ∧
    node_to_builtin_transform known g node "Reverse" =
      (conversion_path g ACES_CONFIG_REFERENCE_COLORSPACE node).bind
        (path_to_builtin_transform known) ∧
    (∀ w, conversion_path g node ACES_CONFIG_REFERENCE_COLORSPACE = some w →
      isWalk g node w = true ∧
      walkEnd node w = ACES_CONFIG_REFERENCE_COLORSPACE ∧
      ∀ w', isWalk g node w' = true →
        walkEnd node w' = ACES_CONFIG_REFERENCE_COLORSPACE →
        w.length ≤ w'.length) ∧
    (∀ w, conversion_path g ACES_CONFIG_REFERENCE_COLORSPACE node = some w →
      isWalk g ACES_CONFIG_REFERENCE_COLORSPACE w = true ∧
      walkEnd ACES_CONFIG_REFERENCE_COLORSPACE w = node ∧
      ∀ w', isWalk g ACES_CONFIG_REFERENCE_COLORSPACE w' = true →
        walkEnd ACES_CONFIG_REFERENCE_COLORSPACE w' = node →
        w.length ≤ w'.length) := by
  refine ⟨rfl, rfl, ?_, ?_⟩
  · intro w hw
    exact conversion_path_spec g node ACES_CONFIG_REFERENCE_COLORSPACE w hw
  · intro w hw
    exact conversion_path_spec g ACES_CONFIG_REFERENCE_COLORSPACE node w hw

/-- C2 (witness): the amended theorem applied to the concrete cycle graph:
the resolved forward path of node `A` is a walk ending at the scene
reference. -/
theorem thm_C2_witness :
    isWalk graphCycle "A" [("A", "B"), ("B", "ACES2065-1")] = true ∧
    walkEnd "A" [("A", "B"), ("B", "ACES2065-1")] =
      ACES_CONFIG_REFERENCE_COLORSPACE := by
  have h := (thm_C2 knownAll graphCycle "A").2.2.1
    [("A", "B"), ("B", "ACES2065-1")] (by decide)
  exact ⟨h.1, h.2.1⟩

/-- C3: the transform chain built from an edge path gives each edge the
identifier source-leaf-segment, separator, target-leaf-segment; one edge
yields that single transform alone, two or more yield a group of the per-edge
transforms in path order, and an empty path yields no transform at all. -/
theorem thm_C3 (known : String → Bool) (path : List (String × String)) :
    (path = [] → path_to_builtin_transform known path = none) ∧
    (∀ e, path = [e] → path_to_builtin_transform known path =
      some (OCIOTransform.single (create_builtin_transform known
        (lastSegment e.1 ++ ACES_CONFIG_BUILTIN_TRANSFORM_NAME_SEPARATOR ++
          lastSegment e.2)))) ∧
    (2 ≤ path.length → path_to_builtin_transform known path =
      some (OCIOTransform.group (path.map (fun e => create_builtin_transform
        known (lastSegment e.1 ++ ACES_CONFIG_BUILTIN_TRANSFORM_NAME_SEPARATOR
          ++ lastSegment e.2))))) := by
  refine ⟨?_, ?_, ?_⟩
  · intro h
    subst h
    rfl
  · intro e h
    subst h
    rfl
  · intro h
    match path, h with
    | e1 :: e2 :: rest, _ =>
      show path_to_builtin_transform known (e1 :: e2 :: rest) = _
      unfold path_to_builtin_transform
      simp only [transform_styles, List.map_cons, reduceCtorEq,
        if_neg (List.cons_ne_nil e1 (e2 :: rest))]
      simp [edge_transform_style, List.map_map, Function.comp]

/-- C3 (witness): the three cases of the chain builder at concrete paths. -/
theorem thm_C3_witness :
    path_to_builtin_transform knownAll [] = none ∧
    path_to_builtin_transform knownAll [("csc/A", "ACES2065-1")] =
      some (OCIOTransform.single (create_builtin_transform knownAll
        (lastSegment "csc/A" ++ ACES_CONFIG_BUILTIN_TRANSFORM_NAME_SEPARATOR ++
          lastSegment "ACES2065-1"))) ∧
    path_to_builtin_transform knownAll [("a/x", "b/y"), ("b/y", "c/z")] =
      some (OCIOTransform.group ([("a/x", "b/y"), ("b/y", "c/z")].map
        (fun e => create_builtin_transform knownAll (lastSegment e.1 ++
          ACES_CONFIG_BUILTIN_TRANSFORM_NAME_SEPARATOR ++ lastSegment e.2)))) :=
  ⟨(thm_C3 knownAll []).1 rfl,
   (thm_C3 knownAll [("csc/A", "ACES2065-1")]).2.1 ("csc/A", "ACES2065-1") rfl,
   (thm_C3 knownAll [("a/x", "b/y"), ("b/y", "c/z")]).2.2 (by decide)⟩

/-- C4: the assembled colorspace list always starts with exactly the
scene-reference entry, the display-reference entry (whose `from_reference`
is the reverse chain resolved from the display reference node) and the
data-flagged transform-free `Raw` utility entry, ahead of all classified
entries. -/
theorem thm_C4 (known : String → Bool) (g : ConversionGraph)
    (describe : ColorspaceDescriptionStyle) (ad : Bool) :
    (generate_config_aces_data known g describe ad).colorspaces.take 3 =
      [scene_reference_colorspace, display_reference_colorspace known g,
        raw_colorspace] ∧
    (generate_config_aces_data known g describe ad).colorspaces.drop 3 =
      (qualifying_nodes g).map
        (fun n => node_to_colorspace known g n.id describe) ∧
    (display_reference_colorspace known g).from_reference =
      node_to_builtin_transform known g
        ACES_CONFIG_OUTPUT_ENCODING_COLORSPACE "Reverse" ∧
    (display_reference_colorspace known g).to_reference = none ∧
    raw_colorspace.is_data = true ∧
    raw_colorspace.to_reference = none ∧
    raw_colorspace.from_reference = none ∧
    scene_reference_colorspace.to_reference = none ∧
    scene_reference_colorspace.from_reference = none := by
  refine ⟨?_, ?_, rfl, rfl, rfl, rfl, rfl, rfl, rfl⟩
  · unfold generate_config_aces_data
    rw [classify_all_eq]
    simp
  · unfold generate_config_aces_data
    rw [classify_all_eq]
    simp

/-- C6: when the style registry rejects a style, `create_builtin_transform`
substitutes the placeholder file transform whose source is the raw style
string, and the chain builder is total: it returns no transform exactly for
the empty path, never because of an unknown style. -/
theorem thm_C6 (known : String → Bool) (style : String)
    (path : List (String × String)) :
    (known style = false →
      create_builtin_transform known style = ElementaryTransform.file style) ∧
    (path_to_builtin_transform known path = none ↔ path = []) := by
  constructor
  · intro h
    simp [create_builtin_transform, h]
  · constructor
    · intro h
      by_contra hne
      unfold path_to_builtin_transform at h
      rw [if_neg hne] at h
      revert h
      cases transform_styles path with
      | nil => simp
      | cons s ss =>
        cases ss with
        | nil => simp
        | cons s2 ss2 => simp
    · intro h
      subst h
      rfl

/-- C6 (witness): an unknown style becomes the placeholder, and a one-edge
path still yields a transform under a registry that rejects everything. -/
theorem thm_C6_witness :
    create_builtin_transform (fun _ => false) "A_to_B" =
      ElementaryTransform.file "A_to_B" ∧
    ¬path_to_builtin_transform (fun _ => false) [("A", "B")] = none := by
  have h := thm_C6 (fun _ => false) "A_to_B" [("A", "B")]
  refine ⟨h.1 rfl, ?_⟩
  intro hnone
  exact absurd (h.2.mp hnone) (by decide)

/-- C9: the view-name beautification of `Rec. 709 (100 nits) dim` under the
fixed view-name rule set is exactly `Rec. 709`. -/
theorem thm_C9 :
    beautify_view_name "Rec. 709 (100 nits) dim" = "Rec. 709" := by
  decide

/-- C10: with `additional_data` false the function returns the config alone
and the colorspace-to-CTL-transform mapping stays empty for the whole run;
with `additional_data` true it returns the triple of config, data record and
the mapping pairing each generated colorspace with its originating CTL
transform, one pair per classified node in processing order. -/
theorem thm_C10 (known : String → Bool) (g : ConversionGraph)
    (describe : ColorspaceDescriptionStyle) :
    (generate_config_aces known g describe false =
      GenerateResult.single (generate_config
        (generate_config_aces_data known g describe false)) ∧
      (classify_all known g describe false).mapping = []) ∧
    (generate_config_aces known g describe true =
      GenerateResult.withData
        (generate_config (generate_config_aces_data known g describe true))
        (generate_config_aces_data known g describe true)
        ((qualifying_nodes g).map (nodePair known g describe))) ∧
    ((qualifying_nodes g).map (nodePair known g describe)).map
        (fun p => p.1) =
      (generate_config_aces_data known g describe true).colorspaces.drop 3 := by
  refine ⟨⟨rfl, ?_⟩, ?_, ?_⟩
  · rw [classify_all_eq]
    simp
  · unfold generate_config_aces
    rw [classify_all_eq]
    simp
  · unfold generate_config_aces_data
    rw [classify_all_eq]
    simp [nodePair, List.map_map, Function.comp]

/-- C5: for any set of derived display names, the final display list pins
`sRGB` first when present, with the remaining names in ascending
lexicographic order; when `sRGB` is absent it is exactly the
lexicographically sorted list of the distinct names.  In both cases the list
holds exactly the input names, without duplicates. -/
theorem thm_C5 (names : List String) (h : names.Nodup) :
    ("sRGB" ∈ names →
      (displays_final names).head? = some "sRGB" ∧
      List.Sorted (fun a b => stringLE a b = true)
        (displays_final names).tail ∧
      (∀ x, x ∈ (displays_final names).tail ↔
        x ∈ names ∧ x ≠ "sRGB")) ∧
    ("sRGB" ∉ names →
      displays_final names = sort_displays names ∧
      List.Sorted (fun a b => stringLE a b = true) (displays_final names)) ∧
    (∀ x, x ∈ displays_final names ↔ x ∈ names) ∧
    (displays_final names).Nodup := by
  have hperm := sort_displays_perm names
  have hsorted := sort_displays_sorted names
  have hnodup : (sort_displays names).Nodup := hperm.nodup_iff.mpr h
  by_cases hmem : "sRGB" ∈ names
  · have hmem2 : "sRGB" ∈ sort_displays names := hperm.mem_iff.mpr hmem
    have hpin : displays_final names =
        "sRGB" :: (sort_displays names).erase "sRGB" := by
      unfold displays_final pin_srgb
      rw [if_pos hmem2]
    refine ⟨fun _ => ⟨?_, ?_, ?_⟩, fun hno => absurd hmem hno, ?_, ?_⟩
    · rw [hpin]
      rfl
    · rw [hpin]
      exact hsorted.sublist (List.erase_sublist "sRGB" (sort_displays names))
    · intro x
      rw [hpin]
      simp only [List.tail_cons]
      rw [hnodup.mem_erase_iff, hperm.mem_iff]
      exact and_comm
    · intro x
      rw [hpin, List.mem_cons, hnodup.mem_erase_iff, hperm.mem_iff]
      constructor
      · rintro (rfl | ⟨_, hx⟩)
        · exact hmem
        · exact hx
      · intro hx
        by_cases hxs : x = "sRGB"
        · exact Or.inl hxs
        · exact Or.inr ⟨hxs, hx⟩
    · rw [hpin]
      exact List.Nodup.cons (hnodup.not_mem_erase) (hnodup.erase "sRGB")
  · have hmem2 : "sRGB" ∉ sort_displays names :=
      fun hx => hmem (hperm.mem_iff.mp hx)
    have hpin : displays_final names = sort_displays names := by
      unfold displays_final pin_srgb
      rw [if_neg hmem2]
    refine ⟨fun hyes => absurd hyes hmem, fun _ => ⟨hpin, ?_⟩, ?_, ?_⟩
    · rw [hpin]
      exact hsorted
    · intro x
      rw [hpin]
      exact hperm.mem_iff
    · rw [hpin]
      exact hnodup

/-- C5 (witness): the theorem applied to a concrete distinct name set with
`sRGB` present. -/
theorem thm_C5_witness :
    (displays_final ["Rec.709", "sRGB", "P3"]).head? = some "sRGB" ∧
    ("P3" ∈ (displays_final ["Rec.709", "sRGB", "P3"]).tail ↔
      "P3" ∈ ["Rec.709", "sRGB", "P3"] ∧ "P3" ≠ "sRGB") ∧
    (displays_final ["Rec.709", "sRGB", "P3"]).Nodup := by
  have h := thm_C5 ["Rec.709", "sRGB", "P3"] (by decide)
  have h1 := h.1 (by decide)
  exact ⟨h1.1, h1.2.2 "P3", h.2.2.2⟩

theorem generate_data_views_eq (known : String → Bool) (g : ConversionGraph)
    (describe : ColorspaceDescriptionStyle) (ad : Bool) :
    (generate_config_aces_data known g describe ad).views =
      sort_views ((familyQual g "output_transform").map
        (nodeView known g describe)) ++
      raw_views (displays_final ((familyQual g "output_transform").foldl
        (fun d n => setAdd d (nodeDisplay g n)) [])) := by
  unfold generate_config_aces_data generate_views
  rw [classify_all_eq]

theorem generate_data_colorspaces_eq (known : String → Bool)
    (g : ConversionGraph) (describe : ColorspaceDescriptionStyle) (ad : Bool) :
    (generate_config_aces_data known g describe ad).colorspaces =
      [scene_reference_colorspace, display_reference_colorspace known g,
        raw_colorspace] ++
      (qualifying_nodes g).map
        (fun n => node_to_colorspace known g n.id describe) := by
  unfold generate_config_aces_data
  rw [classify_all_eq]

/-- C7: the colorspace name of every view entry of the assembled record —
classified output-family views and synthetic per-display `Raw` views alike —
is the name of a colorspace entry present in the record's colorspace list. -/
theorem thm_C7 (known : String → Bool) (g : ConversionGraph)
    (describe : ColorspaceDescriptionStyle) (ad : Bool) (v : ViewEntry)
    (hv : v ∈ (generate_config_aces_data known g describe ad).views) :
    v.colorspace ∈ (generate_config_aces_data known g describe ad).colorspaces.map
      (fun c => c.name) := by
  rw [generate_data_views_eq] at hv
  rw [generate_data_colorspaces_eq]
  rcases List.mem_append.mp hv with hv1 | hv2
  · have hv1b : v ∈ (familyQual g "output_transform").map
        (nodeView known g describe) :=
      (sort_views_perm _).mem_iff.mp hv1
    obtain ⟨n, hn, rfl⟩ := List.mem_map.mp hv1b
    have hnq : n ∈ qualifying_nodes g := by
      unfold qualifying_nodes
      rw [List.mem_flatMap]
      exact ⟨"output_transform", by simp [CLASSIFICATION_FAMILIES], hn⟩
    rw [List.map_append, List.mem_append]
    right
    rw [List.map_map]
    exact List.mem_map.mpr ⟨n, hnq, rfl⟩
  · obtain ⟨d, _, rfl⟩ := List.mem_map.mp hv2
    rw [List.map_append, List.mem_append]
    left
    simp [raw_views, scene_reference_colorspace,
      display_reference_colorspace, raw_colorspace, colorspace_factory]

/-- C7 (witness): the invariant checked at a concrete view of the example
graph. -/
theorem thm_C7_witness :
    (ViewEntry.mk "sRGB" "sRGB_100nits" "sRGB_100nits").colorspace ∈
      (generate_config_aces_data knownAll graphFull
        ColorspaceDescriptionStyle.LONG_UNION false).colorspaces.map
        (fun c => c.name) :=
  thm_C7 knownAll graphFull ColorspaceDescriptionStyle.LONG_UNION false
    (ViewEntry.mk "sRGB" "sRGB_100nits" "sRGB_100nits") (by decide)

/-- C8: the record's active-view list is the view names of the full view
list with duplicates removed keeping first occurrences: it is exactly
`dedupKeepFirst` of the view-name sequence, has no duplicate, contains
precisely the view names, and lists any two of its elements in the order of
their first occurrences in the view list. -/
theorem thm_C8 (known : String → Bool) (g : ConversionGraph)
    (describe : ColorspaceDescriptionStyle) (ad : Bool) :
    (generate_config_aces_data known g describe ad).active_views =
      dedupKeepFirst ((generate_config_aces_data known g describe ad).views.map
        (fun v => v.view)) ∧
    (generate_config_aces_data known g describe ad).active_views.Nodup ∧
    (∀ x, x ∈ (generate_config_aces_data known g describe ad).active_views ↔
      x ∈ (generate_config_aces_data known g describe ad).views.map
        (fun v => v.view)) ∧
    (generate_config_aces_data known g describe ad).active_views.Pairwise
      (fun x y =>
        ((generate_config_aces_data known g describe ad).views.map
            (fun v => v.view)).indexOf x <
        ((generate_config_aces_data known g describe ad).views.map
            (fun v => v.view)).indexOf y) := by
  refine ⟨rfl, ?_, ?_, ?_⟩
  · exact dedupKeepFirst_nodup _
  · intro x
    exact dedupKeepFirst_mem_iff _ x
  · exact dedupKeepFirst_pairwise _

/-- C8 (witness): the active-view list of the example graph, its
duplicate-freeness extracted through the theorem. -/
theorem thm_C8_witness :
    (generate_config_aces_data knownAll graphFull
      ColorspaceDescriptionStyle.LONG_UNION false).active_views.Nodup :=
  (thm_C8 knownAll graphFull ColorspaceDescriptionStyle.LONG_UNION false).2.1
